import Mathlib

/-
Verification development for chart.py: a single-file script that draws
per-segment log-normal spend samples, injects multiplicative outliers,
rounds to currency precision, assembles a tidy table and renders a
box-plot to chart.png.

The script is embedded shallowly:
- machine floats are modelled as rationals;
- the seeded generator `rng = np.random.default_rng(42)` is modelled as a
  record of abstract draw tapes (one tape per kind of draw); the
  log-normal transform itself (exp of a normal) is not representable over
  the rationals, so `lognormal` reads an abstract tape of draw values —
  no theorem below depends on the distributional content of those values;
- fallible numpy calls return `Except String`; a raised exception is an
  `Except.error` carrying a label for the numpy error, and exceptions
  propagate through the straight-line script exactly as in Python;
- `rng.choice(n, size=count, replace=False)` is sampling without
  replacement, embedded as a tape-driven partial Fisher-Yates selection
  from the pool 0..n-1, after the guard `count ≤ n` that numpy enforces;
- `rng.uniform(low, high, size)` with an array-valued `high` follows
  numpy broadcasting: the shape (m,) of `high` broadcasts to the output
  shape (size,) iff m = size or m = 1; otherwise the call raises.
-/

namespace Chart

/-- Abstract model of the seeded generator `np.random.default_rng(42)`:
one tape per kind of draw consumed by the script. -/
structure Rng where
  logn : ℕ → ℚ
  choiceTape : ℕ → ℕ
  unifTape : ℕ → ℚ

/-- Source line 17: `n_per_segment = 400`. -/
def n_per_segment : ℕ := 400

/-- Source line 19: `segments = ["Budget", "Standard", "Premium"]`. -/
def segments : List String := ["Budget", "Standard", "Premium"]

/-- Source lines 23-27: `rng.lognormal(mean, sigma, size)` modelled as
reading `size` abstract draw values from the log-normal tape starting at
offset `off` (the exponential transform is not representable over ℚ and
no theorem uses the values). -/
def lognormal (rng : Rng) (off : ℕ) (size : ℕ) : List ℚ :=
  (List.range size).map fun i => rng.logn (off + i)

/-- Partial Fisher-Yates selection: pick `k` elements from `pool`,
removing each picked element, with the pick position at each step driven
by the choice tape (taken mod the remaining pool size). -/
def fyAux : ℕ → List ℕ → (ℕ → ℕ) → ℕ → List ℕ
  | 0, _, _, _ => []
  | k + 1, pool, tape, pos =>
    let r := tape pos % pool.length
    pool.getD r 0 :: fyAux k (pool.eraseIdx r) tape (pos + 1)

/-- Source line 31: `rng.choice(len(arr), size=count, replace=False)`.
Sampling without replacement from 0..n-1; numpy raises when the
requested sample is larger than the population. -/
def choice (n count : ℕ) (tape : ℕ → ℕ) (pos : ℕ) : Except String (List ℕ) :=
  if count ≤ n then .ok (fyAux count (List.range n) tape pos)
  else .error "sample larger than population"

/-- Source line 32: `rng.uniform(low, high, size=size)` where `high` is an
array of shape (m,).  numpy broadcasting: (m,) broadcasts to (size,) iff
m = size or m = 1; otherwise the call raises a shape-mismatch error.
Each produced value is low + u * (high_i - low) with u the tape draw in
[0, 1). -/
def uniformBC (low : ℚ) (high : List ℚ) (size : ℕ) (u : ℕ → ℚ) (pos : ℕ) :
    Except String (List ℚ) :=
  if high.length = size ∨ high.length = 1 then
    .ok ((List.range size).map fun i =>
      low + u (pos + i) * (high.getD (if high.length = 1 then 0 else i) 0 - low))
  else .error "shape mismatch"

/-- Source line 33: `arr[idx] = arr[idx] * factors`: numpy gathers the old
values `arr[idx]`, multiplies elementwise by `factors`, then scatters the
products back to positions `idx`.  The gather reads the original `arr`. -/
def scatter (arr : List ℚ) (idx : List ℕ) (fs : List ℚ) : List ℚ :=
  (idx.zip fs).foldl (fun a p => a.set p.1 (arr.getD p.1 0 * p.2)) arr

/-- Source lines 30-34: `add_outliers(arr, count, factor_range=(3, 6))`.
Note the second argument of the uniform draw is the whole tuple
`factor_range`, i.e. the 2-element array [fst, snd], not its max. -/
def add_outliers (arr : List ℚ) (count : ℕ) (factor_range : ℚ × ℚ)
    (rng : Rng) (pos : ℕ) : Except String (List ℚ) :=
  match choice arr.length count rng.choiceTape pos with
  | .error e => .error e
  | .ok idx =>
    match uniformBC factor_range.1 [factor_range.1, factor_range.2] count
        rng.unifTape pos with
    | .error e => .error e
    | .ok factors => .ok (scatter arr idx factors)

/-- Round half to even on rationals (the rounding mode of `np.round`). -/
def roundHalfEven (q : ℚ) : ℤ :=
  let n := ⌊q⌋
  let f := q - n
  if f < 1 / 2 then n
  else if 1 / 2 < f then n + 1
  else if n % 2 = 0 then n else n + 1

/-- Source lines 41-43: `np.round(x, 2)` applied elementwise. -/
def round2 (q : ℚ) : ℚ := (roundHalfEven (q * 100) : ℚ) / 100

/-- Source lines 23-43: the data-generation prefix of the script: three
log-normal sample arrays, the three `add_outliers` calls (counts 6, 8,
10), then rounding to 2 decimals.  An exception anywhere propagates. -/
def gen_arrays (rng : Rng) : Except String (List ℚ × List ℚ × List ℚ) :=
  match add_outliers (lognormal rng 0 n_per_segment) 6 (3, 6) rng 0 with
  | .error e => .error e
  | .ok budget_spend =>
    match add_outliers (lognormal rng n_per_segment n_per_segment) 8 (3, 6) rng 1 with
    | .error e => .error e
    | .ok standard_spend =>
      match add_outliers (lognormal rng (2 * n_per_segment) n_per_segment) 10 (3, 6) rng 2 with
      | .error e => .error e
      | .ok premium_spend =>
        .ok (budget_spend.map round2, standard_spend.map round2, premium_spend.map round2)

/-- Source lines 46-49: the tidy DataFrame: segment column is
`np.repeat(segments, n_per_segment)`, spend column is
`np.concatenate([budget, standard, premium])`, zipped row-wise. -/
def mk_df (b s p : List ℚ) : List (String × ℚ) :=
  (segments.flatMap fun seg => List.replicate n_per_segment seg).zip (b ++ s ++ p)

/-- The script state after line 49: the assembled table (or the
propagated exception). -/
def build_df (rng : Rng) : Except String (List (String × ℚ)) :=
  match gen_arrays rng with
  | .error e => .error e
  | .ok (b, s, p) => .ok (mk_df b s p)

/-- Observable outcome of the rendering stage: the file written by
`plt.savefig("chart.png", dpi=64)` from the 8x8-inch figure, and the
table handed to the boxplot. -/
structure RenderOut where
  fileName : String
  width_px : ℕ
  height_px : ℕ
  table : List (String × ℚ)

/-- Source lines 58-98: the whole script.  The renderer runs only if the
data stages succeeded; it writes a single file `chart.png` sized
8 inches x 64 dpi = 512 pixels on each side. -/
def script (rng : Rng) : Except String RenderOut :=
  match build_df rng with
  | .error e => .error e
  | .ok df => .ok { fileName := "chart.png", width_px := 8 * 64, height_px := 8 * 64, table := df }

/-- Decimal digit character. -/
def digitChar (d : ℕ) : Char := Char.ofNat (48 + d)

/-- Least-significant-first decimal digits of a positive number (fuel =
first argument, always sufficient when fuel ≥ n). -/
def digitsRevAux : ℕ → ℕ → List Char
  | 0, _ => []
  | fuel + 1, n => if n = 0 then [] else digitChar (n % 10) :: digitsRevAux fuel (n / 10)

/-- Least-significant-first decimal digits of a natural number. -/
def digitsLSD (n : ℕ) : List Char :=
  if n = 0 then [digitChar 0] else digitsRevAux n n

/-- Decimal string of a natural number. -/
def natStr (n : ℕ) : String := String.mk (digitsLSD n).reverse

/-- Insert a comma after every third digit, walking the
least-significant-first digit list (Python `:,` thousands grouping). -/
def addCommas : List Char → ℕ → List Char
  | [], _ => []
  | [c], _ => [c]
  | c :: rest, k => if k = 2 then c :: ',' :: addCommas rest 0 else c :: addCommas rest (k + 1)

/-- Python `f"{n:,}"` for a natural number: decimal digits grouped in
threes with commas. -/
def commaFmt (n : ℕ) : String := String.mk (addCommas (digitsLSD n) 0).reverse

/-- Python `f"{i:,}"` for an integer. -/
def intStr (i : ℤ) : String := (if i < 0 then "-" else "") ++ commaFmt i.natAbs

/-- Python `int(t)`: truncation toward zero. -/
def truncQ (q : ℚ) : ℤ := if q < 0 then -⌊-q⌋ else ⌊q⌋

/-- Python `f"{t:.2f}"` modelled over ℚ: round half to even at two
decimals, print sign, integer part, dot and exactly two fraction
digits. -/
def fmt2f (t : ℚ) : String :=
  let k := roundHalfEven (t * 100)
  let a := k.natAbs
  (if k < 0 then "-" else "") ++ natStr (a / 100) ++ "." ++
    (if a % 100 < 10 then "0" else "") ++ natStr (a % 100)

/-- Source line 90: the y-tick label formatter
`f"${int(t):,}" if t >= 1 else f"${t:.2f}"`. -/
def tick_label (t : ℚ) : String :=
  if 1 ≤ t then "$" ++ intStr (truncQ t) else "$" ++ fmt2f t

/-- A fixed concrete tape assignment, used to exercise the theorems below
on concrete inputs. -/
def cRng : Rng := { logn := fun _ => 1, choiceTape := fun _ => 0, unifTape := fun _ => 1 / 2 }

/-! Section: Basic evaluation lemmas -/

theorem lognormal_length (rng : Rng) (off size : ℕ) :
    (lognormal rng off size).length = size := by
  simp [lognormal]

theorem choice_ok_of_le (n count : ℕ) (tape : ℕ → ℕ) (pos : ℕ) (h : count ≤ n) :
    choice n count tape pos = .ok (fyAux count (List.range n) tape pos) := by
  unfold choice
  rw [if_pos h]

theorem uniformBC_pair_mismatch (low a b : ℚ) (size : ℕ) (u : ℕ → ℚ) (pos : ℕ)
    (h : size ≠ 2) :
    uniformBC low [a, b] size u pos = .error "shape mismatch" := by
  have hc : ¬ (([a, b] : List ℚ).length = size ∨ ([a, b] : List ℚ).length = 1) := by
    simp only [List.length_cons, List.length_nil]
    omega
  unfold uniformBC
  rw [if_neg hc]

theorem uniformBC_pair_ok (low a b : ℚ) (size : ℕ) (u : ℕ → ℚ) (pos : ℕ) (fs : List ℚ)
    (h : uniformBC low [a, b] size u pos = .ok fs) :
    size = 2 ∧ fs = [low + u pos * (a - low), low + u (pos + 1) * (b - low)] := by
  by_cases hsz : size = 2
  · subst hsz
    refine ⟨rfl, ?_⟩
    have hcond : (([a, b] : List ℚ).length = 2 ∨ ([a, b] : List ℚ).length = 1) := by
      simp
    unfold uniformBC at h
    rw [if_pos hcond] at h
    have hrange : List.range 2 = [0, 1] := rfl
    rw [hrange] at h
    simp only [List.map_cons, List.map_nil, Except.ok.injEq] at h
    rw [← h]
    norm_num [List.getD]
  · rw [uniformBC_pair_mismatch low a b size u pos hsz] at h
    exact absurd h (by simp)

theorem add_outliers_ne_two (arr : List ℚ) (count : ℕ) (fr : ℚ × ℚ) (rng : Rng) (pos : ℕ)
    (hne : count ≠ 2) (hle : count ≤ arr.length) :
    add_outliers arr count fr rng pos = .error "shape mismatch" := by
  unfold add_outliers
  rw [choice_ok_of_le _ _ _ _ hle, uniformBC_pair_mismatch _ _ _ _ _ _ hne]

theorem gen_arrays_error (rng : Rng) : gen_arrays rng = .error "shape mismatch" := by
  have h6 : add_outliers (lognormal rng 0 n_per_segment) 6 (3, 6) rng 0 =
      .error "shape mismatch" := by
    apply add_outliers_ne_two _ _ _ _ _ (by omega)
    rw [lognormal_length]
    norm_num [n_per_segment]
  unfold gen_arrays
  rw [h6]

theorem build_df_error (rng : Rng) : build_df rng = .error "shape mismatch" := by
  unfold build_df
  rw [gen_arrays_error]

theorem script_error (rng : Rng) : script rng = .error "shape mismatch" := by
  unfold script
  rw [build_df_error]

/-- C2: for every count different from 2 (in particular the configured
counts 6, 8, 10) that does not already exceed the array length,
`add_outliers` fails at the uniform-factor draw with a broadcast shape
mismatch, because the upper bound is the 2-element tuple; consequently
the script errors at the first `add_outliers` call: no arrays are
generated, no table is assembled and no image is written. -/
theorem c2_broadcast_failure :
    (∀ (arr : List ℚ) (c : ℕ) (rng : Rng) (pos : ℕ), c ≠ 2 → c ≤ arr.length →
      add_outliers arr c (3, 6) rng pos = .error "shape mismatch") ∧
    (∀ rng : Rng, gen_arrays rng = .error "shape mismatch") ∧
    (∀ rng : Rng, script rng = .error "shape mismatch") :=
  ⟨fun arr c rng pos hne hle => add_outliers_ne_two arr c (3, 6) rng pos hne hle,
   gen_arrays_error, script_error⟩

/-- Witness for C2: the failure at a concrete input (a 3-element array
with count 3, and the script on the concrete tape). -/
theorem c2_broadcast_failure_witness :
    add_outliers [10, 20, 30] 3 (3, 6) cRng 0 = .error "shape mismatch" ∧
    script cRng = .error "shape mismatch" :=
  ⟨c2_broadcast_failure.1 [10, 20, 30] 3 cRng 0 (by omega) (by simp),
   c2_broadcast_failure.2.2 cRng⟩

/-! Section: Rounding -/

theorem roundHalfEven_intCast (k : ℤ) : roundHalfEven (k : ℚ) = k := by
  unfold roundHalfEven
  rw [Int.floor_intCast]
  norm_num

theorem round2_idem (q : ℚ) : round2 (round2 q) = round2 q := by
  unfold round2
  have h : ((roundHalfEven (q * 100) : ℚ) / 100) * 100 = (roundHalfEven (q * 100) : ℚ) := by
    field_simp
  rw [h, roundHalfEven_intCast]

/-- C3: the claim asserts every spend value of the generated dataset is
strictly positive and equal to its own rounding at 2 decimals.  The code
never generates the dataset: the data-generation stage already fails with
the broadcast shape mismatch at the first `add_outliers` call, before the
rounding on lines 41-43 is reached.  The second conjunct records that the
rounding step itself (had it been reached) is idempotent, i.e. produces
values equal to their own rounding at 2 decimals. -/
theorem c3_no_dataset_generated :
    (∀ rng : Rng, gen_arrays rng = Except.error "shape mismatch") ∧
    (∀ q : ℚ, round2 (round2 q) = round2 q) :=
  ⟨gen_arrays_error, round2_idem⟩

/-! Section: Table assembly -/

theorem mk_df_labels :
    (segments.flatMap fun seg => List.replicate n_per_segment seg) =
      List.replicate 400 "Budget" ++ List.replicate 400 "Standard" ++
        List.replicate 400 "Premium" := by
  unfold segments n_per_segment
  simp only [List.flatMap_cons, List.flatMap_nil, List.append_nil, List.append_assoc]

theorem mk_df_length (b s p : List ℚ)
    (hb : b.length = 400) (hs : s.length = 400) (hp : p.length = 400) :
    (mk_df b s p).length = 1200 := by
  unfold mk_df
  rw [List.length_zip, mk_df_labels]
  simp only [List.length_append, List.length_replicate, hb, hs, hp]
  omega

theorem mk_df_fst (b s p : List ℚ)
    (hb : b.length = 400) (hs : s.length = 400) (hp : p.length = 400) :
    (mk_df b s p).map Prod.fst =
      List.replicate 400 "Budget" ++ List.replicate 400 "Standard" ++
        List.replicate 400 "Premium" := by
  have hlen : (List.replicate 400 "Budget" ++ List.replicate 400 "Standard" ++
      List.replicate 400 "Premium").length ≤ (b ++ s ++ p).length := by
    simp only [List.length_append, List.length_replicate, hb, hs, hp]
    omega
  unfold mk_df
  rw [mk_df_labels, List.map_fst_zip _ _ hlen]

theorem mk_df_snd (b s p : List ℚ)
    (hb : b.length = 400) (hs : s.length = 400) (hp : p.length = 400) :
    (mk_df b s p).map Prod.snd = b ++ s ++ p := by
  have hlen : (b ++ s ++ p).length ≤ (List.replicate 400 "Budget" ++
      List.replicate 400 "Standard" ++ List.replicate 400 "Premium").length := by
    simp only [List.length_append, List.length_replicate, hb, hs, hp]
    omega
  unfold mk_df
  rw [mk_df_labels, List.map_snd_zip _ _ hlen]

/-- C4: the claim describes the assembled tidy table (1200 rows, label
blocks Budget/Standard/Premium of 400 rows each, spend column the
concatenation of the three arrays in order).  The script never assembles
the table: `build_df` fails with the propagated broadcast error.  The
remaining conjuncts record that the assembly step `mk_df` (had it been
reached with the three 400-element arrays) produces exactly the claimed
table: 1200 rows, the label column is 400 copies of Budget then 400 of
Standard then 400 of Premium, and the spend column is the concatenation
in enumeration order with no sorting or deduplication. -/
theorem c4_table_shape :
    (∀ rng : Rng, build_df rng = Except.error "shape mismatch") ∧
    (∀ b s p : List ℚ, b.length = 400 → s.length = 400 → p.length = 400 →
      (mk_df b s p).length = 1200 ∧
      (mk_df b s p).map Prod.fst =
        List.replicate 400 "Budget" ++ List.replicate 400 "Standard" ++
          List.replicate 400 "Premium" ∧
      (mk_df b s p).map Prod.snd = b ++ s ++ p) :=
  ⟨build_df_error, fun b s p hb hs hp =>
    ⟨mk_df_length b s p hb hs hp, mk_df_fst b s p hb hs hp, mk_df_snd b s p hb hs hp⟩⟩

/-- Witness for C4: the assembly properties at three concrete
400-element arrays. -/
theorem c4_table_shape_witness :
    build_df cRng = Except.error "shape mismatch" ∧
    ((mk_df (List.replicate 400 1) (List.replicate 400 2) (List.replicate 400 3)).length = 1200 ∧
      (mk_df (List.replicate 400 1) (List.replicate 400 2)
          (List.replicate 400 3)).map Prod.fst =
        List.replicate 400 "Budget" ++ List.replicate 400 "Standard" ++
          List.replicate 400 "Premium" ∧
      (mk_df (List.replicate 400 1) (List.replicate 400 2)
          (List.replicate 400 3)).map Prod.snd =
        List.replicate 400 (1 : ℚ) ++ List.replicate 400 2 ++ List.replicate 400 3) :=
  ⟨c4_table_shape.1 cRng,
   c4_table_shape.2 (List.replicate 400 1) (List.replicate 400 2) (List.replicate 400 3)
     (List.length_replicate 400 1) (List.length_replicate 400 2) (List.length_replicate 400 3)⟩

/-! Section: Sampling without replacement -/

theorem perm_getD_cons_eraseIdx :
    ∀ (l : List ℕ) (r : ℕ), r < l.length → List.Perm l (l.getD r 0 :: l.eraseIdx r) := by
  intro l
  induction l with
  | nil => intro r h; simp at h
  | cons a t ih =>
    intro r h
    cases r with
    | zero => simp [List.getD]
    | succ r =>
      have hr : r < t.length := by simpa using h
      have step := ih r hr
      have h1 : List.Perm (a :: t) (a :: (t.getD r 0 :: t.eraseIdx r)) :=
        List.Perm.cons a step
      have h2 : List.Perm (a :: (t.getD r 0 :: t.eraseIdx r))
          (t.getD r 0 :: a :: t.eraseIdx r) := List.Perm.swap _ _ _
      exact h1.trans h2

theorem fyAux_length :
    ∀ (k : ℕ) (pool : List ℕ) (tape : ℕ → ℕ) (pos : ℕ), k ≤ pool.length →
      (fyAux k pool tape pos).length = k := by
  intro k
  induction k with
  | zero => intro pool tape pos _; rfl
  | succ k ih =>
    intro pool tape pos h
    have hpos : 0 < pool.length := by omega
    have hr : tape pos % pool.length < pool.length := Nat.mod_lt _ hpos
    have herase : (pool.eraseIdx (tape pos % pool.length)).length = pool.length - 1 :=
      List.length_eraseIdx_of_lt hr
    unfold fyAux
    simp only [List.length_cons]
    rw [ih _ tape (pos + 1) (by omega)]

theorem fyAux_subperm :
    ∀ (k : ℕ) (pool : List ℕ) (tape : ℕ → ℕ) (pos : ℕ), k ≤ pool.length →
      List.Subperm (fyAux k pool tape pos) pool := by
  intro k
  induction k with
  | zero => intro pool tape pos _; exact List.nil_subperm
  | succ k ih =>
    intro pool tape pos h
    have hpos : 0 < pool.length := by omega
    have hr : tape pos % pool.length < pool.length := Nat.mod_lt _ hpos
    have herase : (pool.eraseIdx (tape pos % pool.length)).length = pool.length - 1 :=
      List.length_eraseIdx_of_lt hr
    obtain ⟨w, hwperm, hwsub⟩ := ih (pool.eraseIdx (tape pos % pool.length)) tape (pos + 1)
      (by omega)
    have hcons : List.Subperm
        (pool.getD (tape pos % pool.length) 0 :: fyAux k
          (pool.eraseIdx (tape pos % pool.length)) tape (pos + 1))
        (pool.getD (tape pos % pool.length) 0 :: pool.eraseIdx (tape pos % pool.length)) :=
      ⟨_ :: w, hwperm.cons _, hwsub.cons₂ _⟩
    have hperm := perm_getD_cons_eraseIdx pool (tape pos % pool.length) hr
    unfold fyAux
    exact hcons.trans hperm.symm.subperm

theorem fyAux_range_nodup (n k : ℕ) (tape : ℕ → ℕ) (pos : ℕ) (h : k ≤ n) :
    (fyAux k (List.range n) tape pos).Nodup := by
  obtain ⟨w, hwperm, hwsub⟩ :=
    fyAux_subperm k (List.range n) tape pos (by simpa using h)
  exact hwperm.nodup (hwsub.nodup (List.nodup_range n))

theorem fyAux_range_mem (n k : ℕ) (tape : ℕ → ℕ) (pos : ℕ) (h : k ≤ n) :
    ∀ x ∈ fyAux k (List.range n) tape pos, x < n := by
  intro x hx
  have hsub := (fyAux_subperm k (List.range n) tape pos (by simpa using h)).subset
  simpa using hsub hx

theorem choice_spec (n count : ℕ) (tape : ℕ → ℕ) (pos : ℕ) (idx : List ℕ)
    (h : choice n count tape pos = .ok idx) :
    idx.length = count ∧ idx.Nodup ∧ ∀ x ∈ idx, x < n := by
  unfold choice at h
  by_cases hle : count ≤ n
  · rw [if_pos hle] at h
    have hidx : idx = fyAux count (List.range n) tape pos := by
      cases h
      rfl
    subst hidx
    exact ⟨fyAux_length count (List.range n) tape pos (by simpa using hle),
      fyAux_range_nodup n count tape pos hle, fyAux_range_mem n count tape pos hle⟩
  · rw [if_neg hle] at h
    exact absurd h (by simp)

/-- C5: the claim asserts that per segment the chosen outlier index set
has the configured cardinality (6, 8, 10) and is duplicate-free.  The
code never completes an outlier adjustment: with each configured count
the call fails at the uniform-factor draw (first conjunct), so for
Budget the chosen indices are discarded with the exception and for
Standard and Premium the choice is never even made.  The second conjunct
records the intended property of the embedded index selection: whenever
`rng.choice(n, size=count, replace=False)` returns, it returns exactly
`count` pairwise-distinct indices below `n`. -/
theorem c5_outlier_index_choice :
    (∀ (rng : Rng) (pos : ℕ) (arr : List ℚ), arr.length = 400 →
      add_outliers arr 6 (3, 6) rng pos = Except.error "shape mismatch" ∧
      add_outliers arr 8 (3, 6) rng pos = Except.error "shape mismatch" ∧
      add_outliers arr 10 (3, 6) rng pos = Except.error "shape mismatch") ∧
    (∀ (n count : ℕ) (tape : ℕ → ℕ) (pos : ℕ) (idx : List ℕ),
      choice n count tape pos = Except.ok idx →
      idx.length = count ∧ idx.Nodup ∧ ∀ x ∈ idx, x < n) :=
  ⟨fun rng pos arr hlen =>
    ⟨add_outliers_ne_two arr 6 (3, 6) rng pos (by omega) (by omega),
     add_outliers_ne_two arr 8 (3, 6) rng pos (by omega) (by omega),
     add_outliers_ne_two arr 10 (3, 6) rng pos (by omega) (by omega)⟩,
   fun n count tape pos idx h => choice_spec n count tape pos idx h⟩

/-- Witness for C5: the failing calls on a concrete 400-element array,
and the index-selection property at a concrete successful choice. -/
theorem c5_outlier_index_choice_witness :
    (add_outliers (List.replicate 400 1) 6 (3, 6) cRng 0 = Except.error "shape mismatch" ∧
      add_outliers (List.replicate 400 1) 8 (3, 6) cRng 0 = Except.error "shape mismatch" ∧
      add_outliers (List.replicate 400 1) 10 (3, 6) cRng 0 = Except.error "shape mismatch") ∧
    ([2, 4, 1].length = 3 ∧ [2, 4, 1].Nodup ∧ ∀ x ∈ [2, 4, 1], x < 5) :=
  ⟨c5_outlier_index_choice.1 cRng 0 (List.replicate 400 1) (List.length_replicate 400 1),
   c5_outlier_index_choice.2 5 3 (fun i => i + 2) 0 [2, 4, 1] rfl⟩

/-- C7: the claim asserts that two runs with the fixed seed produce
bit-identical per-segment spend arrays.  The run never produces any
spend array: the generation stage fails (first conjunct), so there are
no arrays to compare.  The second conjunct records the determinism that
does hold of the embedding: the script output is a function of the
generator tapes alone, so two runs over identical tapes (the situation
created by reusing seed 42) give identical outcomes. -/
theorem c7_reproducibility :
    (∀ rng : Rng, Except.isOk (gen_arrays rng) = false) ∧
    (∀ r₁ r₂ : Rng, r₁.logn = r₂.logn → r₁.choiceTape = r₂.choiceTape →
      r₁.unifTape = r₂.unifTape → script r₁ = script r₂) := by
  constructor
  · intro rng
    rw [gen_arrays_error]
    rfl
  · intro r₁ r₂ h1 h2 h3
    cases r₁
    cases r₂
    simp only at h1 h2 h3
    subst h1
    subst h2
    subst h3
    rfl

/-- Witness for C7: both conjuncts at the concrete tape assignment. -/
theorem c7_reproducibility_witness :
    Except.isOk (gen_arrays cRng) = false ∧ script cRng = script cRng :=
  ⟨c7_reproducibility.1 cRng, c7_reproducibility.2 cRng cRng rfl rfl rfl⟩

/-- C8: the claim asserts that a run writes exactly one 512x512 image
file `chart.png`.  No run ever reaches `plt.savefig`: the script fails
with the broadcast error raised at the first `add_outliers` call, so it
terminates with an unhandled exception and writes no file at all. -/
theorem c8_no_file_written : ∀ rng : Rng, Except.isOk (script rng) = false := by
  intro rng
  rw [script_error]
  rfl

/-! Section: Outlier application -/

theorem scatter_length (arr : List ℚ) (idx : List ℕ) (fs : List ℚ) :
    (scatter arr idx fs).length = arr.length := by
  unfold scatter
  have key : ∀ (ps : List (ℕ × ℚ)) (acc : List ℚ),
      (ps.foldl (fun a p => a.set p.1 (arr.getD p.1 0 * p.2)) acc).length = acc.length := by
    intro ps
    induction ps with
    | nil => intro acc; rfl
    | cons p ps ih =>
      intro acc
      rw [List.foldl_cons, ih, List.length_set]
  exact key _ arr

theorem scatter_frame (arr : List ℚ) (idx : List ℕ) (fs : List ℚ) (i : ℕ) (hi : i ∉ idx) :
    (scatter arr idx fs)[i]? = arr[i]? := by
  unfold scatter
  have key : ∀ (ps : List (ℕ × ℚ)) (acc : List ℚ), (∀ p ∈ ps, p.1 ∈ idx) →
      (ps.foldl (fun a p => a.set p.1 (arr.getD p.1 0 * p.2)) acc)[i]? = acc[i]? := by
    intro ps
    induction ps with
    | nil => intro acc _; rfl
    | cons p ps ih =>
      intro acc hmem
      rw [List.foldl_cons, ih _ (fun q hq => hmem q (List.mem_cons_of_mem _ hq))]
      apply List.getElem?_set_ne
      intro heq
      exact hi (heq ▸ hmem p (List.mem_cons_self _ _))
  exact key _ arr (fun p hp => (List.of_mem_zip hp).1)

theorem add_outliers_ok_elim (arr : List ℚ) (count : ℕ) (fr : ℚ × ℚ) (rng : Rng)
    (pos : ℕ) (res : List ℚ) (h : add_outliers arr count fr rng pos = .ok res) :
    ∃ idx fs, choice arr.length count rng.choiceTape pos = .ok idx ∧
      uniformBC fr.1 [fr.1, fr.2] count rng.unifTape pos = .ok fs ∧
      res = scatter arr idx fs := by
  unfold add_outliers at h
  cases hc : choice arr.length count rng.choiceTape pos with
  | error e =>
    rw [hc] at h
    exact absurd h (by simp)
  | ok idx =>
    rw [hc] at h
    cases hf : uniformBC fr.1 [fr.1, fr.2] count rng.unifTape pos with
    | error e =>
      rw [hf] at h
      exact absurd h (by simp)
    | ok fs =>
      rw [hf] at h
      simp only [Except.ok.injEq] at h
      exact ⟨idx, fs, rfl, rfl, h.symm⟩

/-- C1: whenever an `add_outliers` call with the configured factor range
(3, 6) returns (instead of raising), the selected entries were scattered
back as old value times a drawn factor, and every drawn factor lies in
the interval [3, 6] (given that the underlying uniform draws lie in
[0, 1)). -/
theorem c1_factor_range (arr : List ℚ) (count : ℕ) (rng : Rng) (pos : ℕ) (res : List ℚ)
    (hu : ∀ i, 0 ≤ rng.unifTape i ∧ rng.unifTape i < 1)
    (h : add_outliers arr count (3, 6) rng pos = .ok res) :
    ∃ idx fs, choice arr.length count rng.choiceTape pos = .ok idx ∧
      uniformBC 3 [3, 6] count rng.unifTape pos = .ok fs ∧
      res = scatter arr idx fs ∧
      ∀ f ∈ fs, 3 ≤ f ∧ f ≤ 6 := by
  obtain ⟨idx, fs, hc, hf, hres⟩ := add_outliers_ok_elim arr count (3, 6) rng pos res h
  refine ⟨idx, fs, hc, hf, hres, ?_⟩
  obtain ⟨hcount, hfs⟩ := uniformBC_pair_ok 3 3 6 count rng.unifTape pos fs hf
  subst hfs
  intro f hfmem
  simp only [List.mem_cons, List.not_mem_nil, or_false] at hfmem
  rcases hfmem with rfl | rfl
  · constructor <;> nlinarith [(hu pos).1, (hu pos).2]
  · constructor <;> nlinarith [(hu (pos + 1)).1, (hu (pos + 1)).2]

/-- Witness for C1: a completing call at count 2 on a concrete array and
concrete tapes; the drawn factors are 3 and 9/2, both inside [3, 6]. -/
theorem c1_factor_range_witness :
    ∃ res, add_outliers [10, 20, 30] 2 (3, 6) cRng 0 = Except.ok res ∧
      ∃ idx fs, choice 3 2 cRng.choiceTape 0 = Except.ok idx ∧
        uniformBC 3 [3, 6] 2 cRng.unifTape 0 = Except.ok fs ∧
        res = scatter [10, 20, 30] idx fs ∧
        ∀ f ∈ fs, 3 ≤ f ∧ f ≤ 6 := by
  obtain ⟨res, h⟩ : ∃ res, add_outliers [10, 20, 30] 2 (3, 6) cRng 0 = Except.ok res :=
    ⟨_, rfl⟩
  exact ⟨res, h, c1_factor_range [10, 20, 30] 2 cRng 0 res
    (fun _ => ⟨by norm_num [cRng], by norm_num [cRng]⟩) h⟩

/-- C9: whenever an `add_outliers` call returns, the returned array is
the input array updated in place at the chosen indices (value-level
model of the numpy in-place fancy assignment): it has the same length,
and every position outside the chosen index list is unchanged. -/
theorem c9_in_place_frame (arr : List ℚ) (count : ℕ) (fr : ℚ × ℚ) (rng : Rng)
    (pos : ℕ) (res : List ℚ) (h : add_outliers arr count fr rng pos = .ok res) :
    res.length = arr.length ∧
    ∃ idx fs, choice arr.length count rng.choiceTape pos = .ok idx ∧
      res = scatter arr idx fs ∧
      ∀ i : ℕ, i ∉ idx → res[i]? = arr[i]? := by
  obtain ⟨idx, fs, hc, hf, hres⟩ := add_outliers_ok_elim arr count fr rng pos res h
  subst hres
  exact ⟨scatter_length arr idx fs, idx, fs, hc, rfl,
    fun i hi => scatter_frame arr idx fs i hi⟩

/-- Witness for C9: the frame property at a concrete completing call
(count 2 on a 3-element array with the concrete tapes). -/
theorem c9_in_place_frame_witness :
    ∃ res, add_outliers [10, 20, 30] 2 (3, 6) cRng 0 = Except.ok res ∧
      res.length = 3 ∧
      ∃ idx fs, choice 3 2 cRng.choiceTape 0 = Except.ok idx ∧
        res = scatter [10, 20, 30] idx fs ∧
        ∀ i : ℕ, i ∉ idx → res[i]? = (([10, 20, 30] : List ℚ)[i]?) := by
  obtain ⟨res, h⟩ : ∃ res, add_outliers [10, 20, 30] 2 (3, 6) cRng 0 = Except.ok res :=
    ⟨_, rfl⟩
  have hmain := c9_in_place_frame [10, 20, 30] 2 (3, 6) cRng 0 res h
  exact ⟨res, h, hmain.1, hmain.2⟩

/-! Section: Tick label formatting -/

theorem truncQ_eq_floor (t : ℚ) (h : 1 ≤ t) : truncQ t = ⌊t⌋ := by
  unfold truncQ
  rw [if_neg (by linarith)]

theorem fmt2f_eval (t : ℚ) (k : ℤ) (h : t * 100 = (k : ℚ)) :
    fmt2f t = (if k < 0 then "-" else "") ++ natStr (k.natAbs / 100) ++ "." ++
      (if k.natAbs % 100 < 10 then "0" else "") ++ natStr (k.natAbs % 100) := by
  unfold fmt2f
  rw [h, roundHalfEven_intCast]

/-- C6: the y-tick formatter renders values at least 1 as whole dollars
with thousands separators (truncated integer part) and values below 1
with two decimal places; in particular 1500, 0.5 and 0 render as
claimed. -/
theorem c6_tick_label_format :
    (∀ t : ℚ, 1 ≤ t → tick_label t = "$" ++ intStr (truncQ t)) ∧
    (∀ t : ℚ, t < 1 → tick_label t = "$" ++ fmt2f t) ∧
    tick_label 1500 = "$1,500" ∧ tick_label (1 / 2) = "$0.50" ∧ tick_label 0 = "$0.00" := by
  refine ⟨?_, ?_, ?_, ?_, ?_⟩
  · intro t ht
    unfold tick_label
    rw [if_pos ht]
  · intro t ht
    unfold tick_label
    rw [if_neg (by linarith)]
  · rfl
  · show tick_label (1 / 2) = "$0.50"
    unfold tick_label
    rw [if_neg (by norm_num), fmt2f_eval (1 / 2) 50 (by norm_num)]
    rfl
  · show tick_label 0 = "$0.00"
    unfold tick_label
    rw [if_neg (by norm_num), fmt2f_eval 0 0 (by norm_num)]
    rfl

/-- Witness for C6: the two formatter branches exercised at 1500 and
1/2. -/
theorem c6_tick_label_format_witness :
    tick_label 1500 = "$" ++ intStr (truncQ 1500) ∧
    tick_label (1 / 2) = "$" ++ fmt2f (1 / 2) :=
  ⟨c6_tick_label_format.1 1500 (by norm_num),
   c6_tick_label_format.2.1 (1 / 2) (by norm_num)⟩

/-- C10: for tick values at least 1 the formatter prints the floor
(truncation toward zero of a positive value), never rounding up and
never keeping decimals: 1.9 renders as "$1", not "$2" and not
"$1.90". -/
theorem c10_truncates_not_rounds :
    (∀ t : ℚ, 1 ≤ t → tick_label t = "$" ++ intStr ⌊t⌋) ∧
    tick_label (19 / 10) = "$1" ∧
    tick_label (19 / 10) ≠ "$2" ∧ tick_label (19 / 10) ≠ "$1.90" := by
  have hval : tick_label (19 / 10) = "$1" := by
    unfold tick_label
    rw [if_pos (by norm_num)]
    have hfloor : truncQ (19 / 10 : ℚ) = 1 := by
      unfold truncQ
      rw [if_neg (by norm_num)]
      rw [show ⌊(19 / 10 : ℚ)⌋ = 1 from Int.floor_eq_iff.mpr (by norm_num)]
    rw [hfloor]
    rfl
  refine ⟨?_, hval, by rw [hval]; decide, by rw [hval]; decide⟩
  intro t ht
  unfold tick_label
  rw [if_pos ht, truncQ_eq_floor t ht]

/-- Witness for C10: the general branch applied at the concrete
non-integer tick 1.9. -/
theorem c10_truncates_not_rounds_witness :
    tick_label (19 / 10) = "$" ++ intStr ⌊(19 / 10 : ℚ)⌋ :=
  c10_truncates_not_rounds.1 (19 / 10) (by norm_num)

end Chart
